import Mathlib

/-!
Verification of the offset-translation and result-rendering layer of a
byte-oriented regex bridge (wasm-regex).

Text is modelled as a list of Unicode scalar values (codepoints as `Nat`);
byte buffers are lists of byte values (`Nat` below 256).  The offset
translators, the lossy renderer and the error model of `src/error.rs` are
embedded below, together with proofs of the specified properties.
-/

/-- UTF-16 code-unit width of a Unicode scalar value: 1 for the Basic
Multilingual Plane (codepoint at most 0xFFFF), else 2 (surrogate pair). -/
def utf16Len (n : Nat) : Nat := if n ≤ 0xFFFF then 1 else 2

/-- UTF-8 byte length of a Unicode scalar value. -/
def utf8Len (n : Nat) : Nat :=
  if n < 0x80 then 1 else if n < 0x800 then 2 else if n < 0x10000 then 3 else 4

/-- A Unicode scalar value: in range and not a surrogate. -/
def ScalarValue (n : Nat) : Prop := n < 0x110000 ∧ (n < 0xD800 ∨ 0xE000 ≤ n)

instance (n : Nat) : Decidable (ScalarValue n) := by unfold ScalarValue; infer_instance

/-- UTF-8 encoding of one scalar value. -/
def utf8EncodeChar (n : Nat) : List Nat :=
  if n < 0x80 then [n]
  else if n < 0x800 then [0xC0 + n / 64, 0x80 + n % 64]
  else if n < 0x10000 then [0xE0 + n / 4096, 0x80 + n / 64 % 64, 0x80 + n % 64]
  else [0xF0 + n / 262144, 0x80 + n / 4096 % 64, 0x80 + n / 64 % 64, 0x80 + n % 64]

/-- UTF-8 encoding of a sequence of scalar values (the byte view of a string,
as `str::as_bytes` exposes it). -/
def utf8Encode (cs : List Nat) : List Nat := cs.flatMap utf8EncodeChar

/-- Is `b` a UTF-8 continuation byte? -/
def contByte (b : Nat) : Prop := 0x80 ≤ b ∧ b ≤ 0xBF

instance (b : Nat) : Decidable (contByte b) := by unfold contByte; infer_instance

/-- Decode the first scalar value of a byte sequence, with its byte length.
Standard UTF-8 validity: no overlong forms, no surrogates, max U+10FFFF;
`none` means the first byte cannot begin a valid encoding at its position. -/
def decodeUtf8 : List Nat → Option (Nat × Nat)
  | [] => none
  | b0 :: rest =>
    if b0 < 0x80 then some (b0, 1)
    else if 0xC2 ≤ b0 ∧ b0 ≤ 0xDF then
      rest.head?.bind fun b1 =>
        if contByte b1 then some ((b0 - 0xC0) * 64 + (b1 - 0x80), 2) else none
    else if 0xE0 ≤ b0 ∧ b0 ≤ 0xEF then
      rest.head?.bind fun b1 => rest.tail.head?.bind fun b2 =>
        if (if b0 = 0xE0 then 0xA0 else 0x80) ≤ b1 ∧ b1 ≤ (if b0 = 0xED then 0x9F else 0xBF) ∧
            contByte b2 then
          some ((b0 - 0xE0) * 4096 + (b1 - 0x80) * 64 + (b2 - 0x80), 3)
        else none
    else if 0xF0 ≤ b0 ∧ b0 ≤ 0xF4 then
      rest.head?.bind fun b1 => rest.tail.head?.bind fun b2 => rest.tail.tail.head?.bind fun b3 =>
        if (if b0 = 0xF0 then 0x90 else 0x80) ≤ b1 ∧ b1 ≤ (if b0 = 0xF4 then 0x8F else 0xBF) ∧
            contByte b2 ∧ contByte b3 then
          some ((b0 - 0xF0) * 262144 + (b1 - 0x80) * 4096 + (b2 - 0x80) * 64 + (b3 - 0x80), 4)
        else none
    else none

/-- Lowercase hex digit character code. -/
def hexDigit (n : Nat) : Nat := if n < 10 then 48 + n else 87 + n

/-- The 4-character escape unit `\xHH` (lowercase hex, zero-padded) for one
otherwise non-renderable byte. -/
def escapeByte (b : Nat) : List Nat := [92, 120, hexDigit (b / 16 % 16), hexDigit (b % 16)]

/-- Fuel-indexed lossy rendering loop: copy a decodable scalar through
verbatim, or render one non-decodable byte as its escape unit and resume
decoding at the next byte.  The fuel only bounds recursion depth; one byte of
input always consumes at least one unit. -/
def renderGo : Nat → List Nat → List Nat
  | 0, _ => []
  | _, [] => []
  | fuel + 1, b :: bs =>
    match decodeUtf8 (b :: bs) with
    | some (c, len) => c :: renderGo fuel (bs.drop (len - 1))
    | none => escapeByte b ++ renderGo fuel bs

/-- Lossy rendering of a byte sequence as displayable text (scalar values). -/
def renderBytes (bs : List Nat) : List Nat := renderGo bs.length bs

/-- The scalar values of a Lean string literal, used to state concrete
examples over the embedding. -/
def textCP (s : String) : List Nat := s.data.map Char.toNat

/-- Modelled from the spec: the lossy byte-range renderer `str_from_utf8_rep`
(its body is not under src/; src/tests.rs fixes its behaviour).  Renders the
byte range `[s8, e8)` of the subject's UTF-8 bytes, escaping bytes that are
not part of a valid encoded scalar value. -/
def str_from_utf8_rep (s : List Nat) (s8 e8 : Nat) : List Nat :=
  renderBytes (((utf8Encode s).drop s8).take (e8 - s8))

/-- Modelled from the spec: the scalar byte-to-UTF-16 offset translator
`utf16_index_bytes` (its body is not under src/; src/tests.rs fixes its
behaviour).  Counts the UTF-16 width of every scalar that starts strictly
before byte offset `i` — the ceiling-snap policy of the spec. -/
def utf16_index_bytes : List Nat → Nat → Nat
  | [], _ => 0
  | c :: cs, i => if i = 0 then 0 else utf16Len c + utf16_index_bytes cs (i - utf8Len c)

/-- Modelled from the spec: the char-position translator `utf16_index_chars`
(its body is not under src/).  Sums the UTF-16 width of every scalar at
char-index below `k` in one line of text. -/
def utf16_index_chars (line : List Nat) (k : Nat) : Nat := ((line.take k).map utf16Len).sum

/-- Insert into a strictly ascending list, skipping duplicates. -/
def insertSorted (x : Nat) : List Nat → List Nat
  | [] => [x]
  | y :: ys => if x < y then x :: y :: ys else if x = y then y :: ys else y :: insertSorted x ys

/-- Sort ascending and remove duplicates (the `sort_unstable` plus `dedup`
preprocessing of the batched translator). -/
def sortDedup : List Nat → List Nat
  | [] => []
  | x :: xs => insertSorted x (sortDedup xs)

/-- Advance the linear pass over the buffer until the byte position reaches
query offset `q`, accumulating the UTF-16 count of every scalar passed. -/
def advance : List Nat → Nat → Nat → Nat → List Nat × Nat × Nat
  | [], bpos, u16, _ => ([], bpos, u16)
  | c :: cs, bpos, u16, q =>
    if q ≤ bpos then (c :: cs, bpos, u16) else advance cs (bpos + utf8Len c) (u16 + utf16Len c) q

/-- Emit one `(byte offset, UTF-16 offset)` pair per query, sweeping the
buffer once; queries must arrive sorted ascending. -/
def sweepQs : List Nat → Nat → Nat → List Nat → List (Nat × Nat)
  | _, _, _, [] => []
  | cs, bpos, u16, q :: qs =>
    let st := advance cs bpos u16 q
    (q, st.2.2) :: sweepQs st.1 st.2.1 st.2.2 qs

/-- Modelled from the spec: the batched byte-to-UTF-16 translator
`utf16_index_bytes_slice` (its body is not under src/; src/tests.rs fixes
its behaviour).  Sorts and dedups the query offsets, then sweeps the
buffer's scalar boundaries in a single linear pass. -/
def utf16_index_bytes_slice (cs offs : List Nat) : List (Nat × Nat) :=
  sweepQs cs 0 0 (sortDedup offs)

/-- Total UTF-8 byte length of a sequence of scalar values. -/
def utf8Sum (cs : List Nat) : Nat := (cs.map utf8Len).sum

/-- Total UTF-16 code-unit length of a sequence of scalar values. -/
def utf16Sum (cs : List Nat) : Nat := (cs.map utf16Len).sum

/-- The smallest scalar boundary at or after byte offset `i` (ceiling snap). -/
def ceilBoundary : List Nat → Nat → Nat
  | [], _ => 0
  | c :: cs, i => if i = 0 then 0 else utf8Len c + ceilBoundary cs (i - utf8Len c)

/-- UTF-16 length of the scalars whose encodings lie fully inside the first
`b` bytes of the buffer. -/
def utf16Within : List Nat → Nat → Nat
  | [], _ => 0
  | c :: cs, b => if utf8Len c ≤ b then utf16Len c + utf16Within cs (b - utf8Len c) else 0

/-- Predicate: `b` is a Boundary, a byte offset at the start of a scalar value, or the
total byte length (end sentinel). -/
def IsBoundary (cs : List Nat) (b : Nat) : Prop := ∃ k, b = utf8Sum (cs.take k)

/-- Strip one trailing carriage return, as Rust's `str::lines` does after
splitting at newlines. -/
def stripCR (l : List Nat) : List Nat := if l.getLast? = some 13 then l.dropLast else l

/-- Rust's `str::lines`: split at `\n`, final line ending optional, one
trailing `\r` stripped per line; the empty string has no lines. -/
def rustLines (s : List Nat) : List (List Nat) :=
  if s = [] then []
  else
    let parts := s.splitOn 10
    (if s.getLast? = some 10 then parts.dropLast else parts).map stripCR

/-- Model of `regex_syntax::ast::Position`: byte offset, 1-based line,
1-based char column, as produced by the pattern parser's diagnostics. -/
structure RePosition where
  offset : Nat
  line : Nat
  column : Nat
deriving DecidableEq

/-- Model of `regex_syntax::ast::Span`: the diagnostic's start and end
positions (`stop` models the Rust field `end`). -/
structure ReSpan where
  start : RePosition
  stop : RePosition
deriving DecidableEq

/-- The serializable `Position` of src/error.rs (all fields UTF-16 based
after translation). -/
structure Position where
  offset : Nat
  line : Nat
  column : Nat
deriving DecidableEq

/-- The serializable `Span` of src/error.rs (`stop` models the Rust field
`end`). -/
structure Span where
  start : Position
  stop : Position
deriving DecidableEq

/-- The function `make_span` of src/error.rs: convert a diagnostic span's UTF-8 indices to
UTF-16.  The offsets go through the scalar byte translator against the whole
pattern; the columns go through the char translator against the specific
line, looked up 1-based by newline splitting.  The lookup's failure (a Rust
`unwrap` panic) is modelled as `none`. -/
def make_span (s : List Nat) (sp : ReSpan) : Option Span :=
  let off16s := utf16_index_bytes s sp.start.offset
  let off16e := utf16_index_bytes s sp.stop.offset
  ((rustLines s)[sp.start.line - 1]?).bind fun startLine =>
    ((rustLines s)[sp.stop.line - 1]?).bind fun endLine =>
      some { start := { offset := off16s, line := sp.start.line,
                        column := utf16_index_chars startLine (sp.start.column - 1) + 1 },
             stop := { offset := off16e, line := sp.stop.line,
                       column := utf16_index_chars endLine (sp.stop.column - 1) + 1 } }

/-- The serializable `ReSyntax` wrapper of src/error.rs: kind (diagnostic
category name), message, offending pattern, primary span, and optional
auxiliary span. -/
structure ReSyn where
  kind : String
  message : String
  pattern : List Nat
  span : Span
  auxiliary_span : Option Span
deriving DecidableEq

/-- A parse-stage (AST) pattern diagnostic as exposed by the external parser:
category name, display message, pattern text, primary span and optional
auxiliary span (e.g. for duplicate-name errors). -/
structure AstError where
  kind : String
  message : String
  pattern : List Nat
  span : ReSpan
  auxiliary_span : Option ReSpan
deriving DecidableEq

/-- A translate-stage (HIR, semantic) pattern diagnostic: category name,
display message, pattern text and primary span only. -/
structure HirError where
  kind : String
  message : String
  pattern : List Nat
  span : ReSpan
deriving DecidableEq

/-- Model of `regex_syntax::Error`: a parse error, a translate error, or some
other (non_exhaustive) variant. -/
inductive ReStxError where
  | parse : AstError → ReStxError
  | translate : HirError → ReStxError
  | other : ReStxError
deriving DecidableEq

/-- The conversion `From<regex_syntax::Error> for ReSyntax` of src/error.rs.
A failing line lookup inside `make_span` (a Rust panic) is modelled as
`none`; the fallback branch produces kind `"unspecified error"` with every
other field defaulted. -/
def reSynFrom : ReStxError → Option ReSyn
  | .parse e =>
    (make_span e.pattern e.span).bind fun sp =>
      match e.auxiliary_span with
      | none => some ⟨e.kind, e.message, e.pattern, sp, none⟩
      | some asp =>
        (make_span e.pattern asp).map fun asp' => ⟨e.kind, e.message, e.pattern, sp, some asp'⟩
  | .translate e =>
    (make_span e.pattern e.span).map fun sp => ⟨e.kind, e.message, e.pattern, sp, none⟩
  | .other =>
    some ⟨"unspecified error", "", [], ⟨⟨0, 0, 0⟩, ⟨0, 0, 0⟩⟩, none⟩

/-- The closed error union `Error` of src/error.rs: syntax wrapper,
compiled-too-big, unspecified catch-all, and encoding failure. -/
inductive Error where
  | reSyn : ReSyn → Error
  | compiledTooBig : String → Error
  | unspecified : String → Error
  | encoding : String → Error
deriving DecidableEq

/-- The conversion `From<regex_syntax::Error> for Error` of src/error.rs:
always wraps into the syntax variant. -/
def errorFromStx (e : ReStxError) : Option Error := (reSynFrom e).map Error.reSyn

/-- Model of `regex::Error` (the execution-stage matcher error): a syntax
error carrying its display string, the compiled-too-big condition, or any
other (non_exhaustive) failure. -/
inductive RegexError where
  | stx : String → RegexError
  | compiledTooBig : String → RegexError
  | other : String → RegexError
deriving DecidableEq

/-- The conversion `From<regex::Error> for Error` of src/error.rs.  The
syntax branch is `unreachable!()` in the source — an abort if ever reached —
modelled as `none`; the other branches return structured data. -/
def errorFromRegex : RegexError → Option Error
  | .stx _ => none
  | .compiledTooBig s => some (.compiledTooBig s)
  | .other s => some (.unspecified s)

theorem utf8Len_pos (c : Nat) : 1 ≤ utf8Len c := by
  unfold utf8Len
  by_cases h1 : c < 0x80 <;> by_cases h2 : c < 0x800 <;> by_cases h3 : c < 0x10000 <;>
    simp [h1, h2, h3]

theorem length_utf8EncodeChar (c : Nat) : (utf8EncodeChar c).length = utf8Len c := by
  unfold utf8EncodeChar utf8Len
  by_cases h1 : c < 0x80
  · simp [h1]
  · by_cases h2 : c < 0x800
    · simp [h1, h2]
    · by_cases h3 : c < 0x10000
      · simp [h1, h2, h3]
      · simp [h1, h2, h3]

theorem utf8EncodeChar_ne_nil (c : Nat) : utf8EncodeChar c ≠ [] := by
  intro hE
  have h1 := length_utf8EncodeChar c
  rw [hE] at h1
  simp at h1
  have h2 := utf8Len_pos c
  omega

theorem length_utf8Encode (cs : List Nat) : (utf8Encode cs).length = utf8Sum cs := by
  induction cs with
  | nil => rfl
  | cons c cs ih =>
    have h1 : utf8Encode (c :: cs) = utf8EncodeChar c ++ utf8Encode cs := by simp [utf8Encode]
    have h2 : utf8Sum (c :: cs) = utf8Len c + utf8Sum cs := by simp [utf8Sum]
    rw [h1, h2, List.length_append, length_utf8EncodeChar, ih]

/-- Decoding starts over the encoding of a valid scalar value always
recovers that scalar and its byte length, whatever follows. -/
theorem decode_encode (c : Nat) (hc : ScalarValue c) (tl : List Nat) :
    decodeUtf8 (utf8EncodeChar c ++ tl) = some (c, utf8Len c) := by
  obtain ⟨hlt, hsur⟩ := hc
  by_cases h1 : c < 0x80
  · simp only [utf8EncodeChar, if_pos h1, List.cons_append, List.nil_append]
    rw [decodeUtf8, if_pos h1]
    simp [utf8Len, h1]
  · by_cases h2 : c < 0x800
    · simp only [utf8EncodeChar, if_neg h1, if_pos h2, List.cons_append, List.nil_append]
      rw [decodeUtf8]
      have hb0 : ¬ (0xC0 + c / 64 < 0x80) := by omega
      have hb0' : 0xC2 ≤ 0xC0 + c / 64 ∧ 0xC0 + c / 64 ≤ 0xDF := by omega
      rw [if_neg hb0, if_pos hb0']
      simp only [List.head?_cons, List.tail_cons, Option.some_bind]
      have hcont : contByte (0x80 + c % 64) := by unfold contByte; omega
      rw [if_pos hcont]
      have hval : (0xC0 + c / 64 - 0xC0) * 64 + (0x80 + c % 64 - 0x80) = c := by omega
      rw [hval]
      simp [utf8Len, h1, h2]
    · by_cases h3 : c < 0x10000
      · simp only [utf8EncodeChar, if_neg h1, if_neg h2, if_pos h3, List.cons_append,
          List.nil_append]
        rw [decodeUtf8]
        have hb0 : ¬ (0xE0 + c / 4096 < 0x80) := by omega
        have hb0' : ¬ (0xC2 ≤ 0xE0 + c / 4096 ∧ 0xE0 + c / 4096 ≤ 0xDF) := by omega
        have hb0'' : 0xE0 ≤ 0xE0 + c / 4096 ∧ 0xE0 + c / 4096 ≤ 0xEF := by omega
        rw [if_neg hb0, if_neg hb0', if_pos hb0'']
        simp only [List.head?_cons, List.tail_cons, Option.some_bind]
        have hguard : (if 0xE0 + c / 4096 = 0xE0 then 0xA0 else 0x80) ≤ 0x80 + c / 64 % 64 ∧
            0x80 + c / 64 % 64 ≤ (if 0xE0 + c / 4096 = 0xED then 0x9F else 0xBF) ∧
            contByte (0x80 + c % 64) := by
          unfold contByte
          constructor
          · by_cases he : 0xE0 + c / 4096 = 0xE0
            · rw [if_pos he]
              omega
            · rw [if_neg he]
              omega
          constructor
          · by_cases he : 0xE0 + c / 4096 = 0xED
            · rw [if_pos he]
              omega
            · rw [if_neg he]
              omega
          · omega
        rw [if_pos hguard]
        have hval : (0xE0 + c / 4096 - 0xE0) * 4096 + (0x80 + c / 64 % 64 - 0x80) * 64 +
            (0x80 + c % 64 - 0x80) = c := by omega
        rw [hval]
        simp [utf8Len, h1, h2, h3]
      · simp only [utf8EncodeChar, if_neg h1, if_neg h2, if_neg h3, List.cons_append,
          List.nil_append]
        rw [decodeUtf8]
        have hb0 : ¬ (0xF0 + c / 262144 < 0x80) := by omega
        have hb0' : ¬ (0xC2 ≤ 0xF0 + c / 262144 ∧ 0xF0 + c / 262144 ≤ 0xDF) := by omega
        have hb0'' : ¬ (0xE0 ≤ 0xF0 + c / 262144 ∧ 0xF0 + c / 262144 ≤ 0xEF) := by omega
        have hb0''' : 0xF0 ≤ 0xF0 + c / 262144 ∧ 0xF0 + c / 262144 ≤ 0xF4 := by omega
        rw [if_neg hb0, if_neg hb0', if_neg hb0'', if_pos hb0''']
        simp only [List.head?_cons, List.tail_cons, Option.some_bind]
        have hguard : (if 0xF0 + c / 262144 = 0xF0 then 0x90 else 0x80) ≤ 0x80 + c / 4096 % 64 ∧
            0x80 + c / 4096 % 64 ≤ (if 0xF0 + c / 262144 = 0xF4 then 0x8F else 0xBF) ∧
            contByte (0x80 + c / 64 % 64) ∧ contByte (0x80 + c % 64) := by
          unfold contByte
          refine ⟨?_, ?_, by omega, by omega⟩
          · by_cases he : 0xF0 + c / 262144 = 0xF0
            · rw [if_pos he]
              omega
            · rw [if_neg he]
              omega
          · by_cases he : 0xF0 + c / 262144 = 0xF4
            · rw [if_pos he]
              omega
            · rw [if_neg he]
              omega
        rw [if_pos hguard]
        have hval : (0xF0 + c / 262144 - 0xF0) * 262144 + (0x80 + c / 4096 % 64 - 0x80) * 4096 +
            (0x80 + c / 64 % 64 - 0x80) * 64 + (0x80 + c % 64 - 0x80) = c := by omega
        rw [hval]
        simp [utf8Len, h1, h2, h3]

/-- With enough fuel, rendering the encoding of valid scalars copies them
through verbatim. -/
theorem renderGo_encode (cs : List Nat) : ∀ (fuel : Nat), (∀ c ∈ cs, ScalarValue c) →
    (utf8Encode cs).length ≤ fuel → renderGo fuel (utf8Encode cs) = cs := by
  induction cs with
  | nil =>
    intro fuel _ _
    cases fuel with
    | zero => rfl
    | succ f => rfl
  | cons c cs ih =>
    intro fuel h hfuel
    have hc := h c (List.mem_cons_self c cs)
    have hrest : ∀ x ∈ cs, ScalarValue x := fun x hx => h x (List.mem_cons_of_mem c hx)
    have henc : utf8Encode (c :: cs) = utf8EncodeChar c ++ utf8Encode cs := by
      simp [utf8Encode]
    obtain ⟨b, bs', hbb⟩ : ∃ b bs', utf8EncodeChar c = b :: bs' := by
      cases hE : utf8EncodeChar c with
      | nil => exact absurd hE (utf8EncodeChar_ne_nil c)
      | cons b bs' => exact ⟨b, bs', rfl⟩
    have hlen : bs'.length = utf8Len c - 1 := by
      have := length_utf8EncodeChar c
      rw [hbb] at this
      simp at this
      omega
    obtain ⟨f, rfl⟩ : ∃ f, fuel = f + 1 := by
      rw [henc, hbb] at hfuel
      simp at hfuel
      exact ⟨fuel - 1, by omega⟩
    rw [henc, hbb, List.cons_append, renderGo]
    rw [show b :: (bs' ++ utf8Encode cs) = utf8EncodeChar c ++ utf8Encode cs from by
      rw [hbb, List.cons_append]]
    rw [decode_encode c hc]
    show c :: renderGo f (List.drop (utf8Len c - 1) (bs' ++ utf8Encode cs)) = c :: cs
    rw [← hlen, List.drop_left]
    rw [ih f hrest (by
      rw [henc, hbb] at hfuel
      simp at hfuel
      omega)]

theorem renderBytes_encode (cs : List Nat) (h : ∀ c ∈ cs, ScalarValue c) :
    renderBytes (utf8Encode cs) = cs :=
  renderGo_encode cs (utf8Encode cs).length h le_rfl

/-- One non-decodable byte renders as exactly its escape unit, and decoding
resumes at the very next byte. -/
theorem renderBytes_invalid (b : Nat) (bs : List Nat) (h : decodeUtf8 (b :: bs) = none) :
    renderBytes (b :: bs) = escapeByte b ++ renderBytes bs := by
  rw [renderBytes, List.length_cons, renderGo, h, renderBytes]

theorem mem_insertSorted {x z : Nat} : ∀ {l : List Nat}, z ∈ insertSorted x l ↔ z = x ∨ z ∈ l := by
  intro l
  induction l with
  | nil => simp [insertSorted]
  | cons y ys ih =>
    by_cases h1 : x < y
    · simp [insertSorted, h1]
    · by_cases h2 : x = y
      · subst h2
        have he : insertSorted x (x :: ys) = x :: ys := by
          rw [insertSorted, if_neg h1, if_pos rfl]
        rw [he, List.mem_cons]
        tauto
      · simp only [insertSorted, if_neg h1, if_neg h2, List.mem_cons, ih]
        tauto

theorem head?_insertSorted (x : Nat) (l : List Nat) :
    (insertSorted x l).head? = some x ∨ (insertSorted x l).head? = l.head? := by
  cases l with
  | nil => left; rfl
  | cons y ys =>
    by_cases h1 : x < y
    · left; simp [insertSorted, h1]
    · by_cases h2 : x = y
      · right; simp [insertSorted, h1, h2]
      · right; simp [insertSorted, h1, h2]

theorem chain'_insertSorted {x : Nat} : ∀ {l : List Nat},
    l.Chain' (· < ·) → (insertSorted x l).Chain' (· < ·) := by
  intro l
  induction l with
  | nil => simp [insertSorted]
  | cons y ys ih =>
    intro hc
    by_cases h1 : x < y
    · rw [insertSorted, if_pos h1]
      exact List.Chain'.cons h1 hc
    · by_cases h2 : x = y
      · subst h2; simpa [insertSorted, h1] using hc
      · rw [insertSorted, if_neg h1, if_neg h2]
        rw [List.chain'_cons'] at hc ⊢
        refine ⟨?_, ih hc.2⟩
        intro z hz
        rcases head?_insertSorted x ys with h | h
        · rw [h] at hz
          cases hz
          omega
        · exact hc.1 z (h ▸ hz)

theorem chain'_sortDedup (l : List Nat) : (sortDedup l).Chain' (· < ·) := by
  induction l with
  | nil => exact List.chain'_nil
  | cons x xs ih => exact chain'_insertSorted ih

theorem mem_sortDedup {z : Nat} {l : List Nat} : z ∈ sortDedup l ↔ z ∈ l := by
  induction l with
  | nil => simp [sortDedup]
  | cons x xs ih => simp [sortDedup, mem_insertSorted, ih]

/-- A strictly ascending list is determined by its membership. -/
theorem chain'_lt_ext : ∀ (l₁ l₂ : List Nat), l₁.Chain' (· < ·) → l₂.Chain' (· < ·) →
    (∀ z, z ∈ l₁ ↔ z ∈ l₂) → l₁ = l₂ := by
  intro l₁
  induction l₁ with
  | nil =>
    intro l₂ _ _ hmem
    cases l₂ with
    | nil => rfl
    | cons y ys => exact absurd ((hmem y).2 (List.mem_cons_self y ys)) (List.not_mem_nil y)
  | cons x xs ih =>
    intro l₂ h1 h2 hmem
    cases l₂ with
    | nil => exact absurd ((hmem x).1 (List.mem_cons_self x xs)) (List.not_mem_nil x)
    | cons y ys =>
      have hx2 : x ∈ y :: ys := (hmem x).1 (List.mem_cons_self x xs)
      have hy1 : y ∈ x :: xs := (hmem y).2 (List.mem_cons_self y ys)
      have hminx : ∀ z ∈ xs, x < z := fun z hz =>
        List.rel_of_pairwise_cons (List.chain'_iff_pairwise.mp h1) hz
      have hminy : ∀ z ∈ ys, y < z := fun z hz =>
        List.rel_of_pairwise_cons (List.chain'_iff_pairwise.mp h2) hz
      have hxy : x = y := by
        rcases List.mem_cons.mp hx2 with h | h
        · exact h
        · rcases List.mem_cons.mp hy1 with h' | h'
          · omega
          · have := hminx y h'
            have := hminy x h
            omega
      subst hxy
      have htail : ∀ z, z ∈ xs ↔ z ∈ ys := by
        intro z
        constructor
        · intro hz
          have hlt := hminx z hz
          rcases List.mem_cons.mp ((hmem z).1 (List.mem_cons_of_mem x hz)) with h | h
          · omega
          · exact h
        · intro hz
          have hlt := hminy z hz
          rcases List.mem_cons.mp ((hmem z).2 (List.mem_cons_of_mem x hz)) with h | h
          · omega
          · exact h
      rw [ih ys h1.tail h2.tail htail]

/-- Sorting-and-deduping is invariant under permutation of the input. -/
theorem sortDedup_perm {l l' : List Nat} (h : l.Perm l') : sortDedup l = sortDedup l' :=
  chain'_lt_ext _ _ (chain'_sortDedup l) (chain'_sortDedup l')
    (fun z => by rw [mem_sortDedup, mem_sortDedup]; exact ⟨h.mem_iff.mp, h.mem_iff.mpr⟩)

theorem utf16_index_bytes_zero (cs : List Nat) : utf16_index_bytes cs 0 = 0 := by
  cases cs with
  | nil => rfl
  | cons c cs => rw [utf16_index_bytes, if_pos rfl]

theorem advance_stop (cs : List Nat) (bpos u16 q : Nat) :
    (advance cs bpos u16 q).1 = [] ∨ q ≤ (advance cs bpos u16 q).2.1 := by
  induction cs generalizing bpos u16 with
  | nil => left; rfl
  | cons c cs ih =>
    by_cases h : q ≤ bpos
    · right
      rw [advance, if_pos h]
      exact h
    · rw [advance, if_neg h]
      exact ih _ _

/-- Advancing the sweep state preserves the translated value of every query
at or after the advance target. -/
theorem advance_frame (cs : List Nat) (bpos u16 q : Nat) :
    ∀ q', q ≤ q' →
      (advance cs bpos u16 q).2.2 +
          utf16_index_bytes (advance cs bpos u16 q).1 (q' - (advance cs bpos u16 q).2.1) =
        u16 + utf16_index_bytes cs (q' - bpos) := by
  induction cs generalizing bpos u16 with
  | nil =>
    intro q' _
    rfl
  | cons c cs ih =>
    intro q' hq
    by_cases h : q ≤ bpos
    · rw [advance, if_pos h]
    · rw [advance, if_neg h]
      rw [ih _ _ q' hq]
      have h1 : q' - bpos ≠ 0 := by omega
      rw [utf16_index_bytes, if_neg h1]
      have h2 : q' - (bpos + utf8Len c) = q' - bpos - utf8Len c := by omega
      rw [h2]
      omega

/-- The single-pass sweep answers every sorted query exactly as the scalar
translator would, relative to the current sweep state. -/
theorem sweepQs_eq (qs : List Nat) : ∀ (cs : List Nat) (bpos u16 : Nat),
    qs.Pairwise (· ≤ ·) →
    sweepQs cs bpos u16 qs = qs.map (fun q => (q, u16 + utf16_index_bytes cs (q - bpos))) := by
  induction qs with
  | nil => intro cs bpos u16 _; rfl
  | cons q qs ih =>
    intro cs bpos u16 hsort
    rw [sweepQs]
    have hhead : (advance cs bpos u16 q).2.2 = u16 + utf16_index_bytes cs (q - bpos) := by
      have hfr := advance_frame cs bpos u16 q q le_rfl
      rcases advance_stop cs bpos u16 q with h | h
      · rw [h] at hfr
        simpa [utf16_index_bytes] using hfr
      · rw [Nat.sub_eq_zero_of_le h, utf16_index_bytes_zero] at hfr
        simpa using hfr
    rw [List.map_cons, hhead]
    congr 1
    rw [ih _ _ _ hsort.of_cons]
    apply List.map_congr_left
    intro q' hq'
    have hge : q ≤ q' := List.rel_of_pairwise_cons hsort hq'
    have hfr := advance_frame cs bpos u16 q q' hge
    rw [hhead] at hfr
    rw [Prod.mk.injEq]
    exact ⟨rfl, by omega⟩

/-- The batched translator is the scalar translator mapped over the sorted,
deduplicated queries. -/
theorem slice_eq_map (cs offs : List Nat) :
    utf16_index_bytes_slice cs offs =
      (sortDedup offs).map (fun o => (o, utf16_index_bytes cs o)) := by
  rw [utf16_index_bytes_slice,
    sweepQs_eq _ _ _ _ ((List.chain'_iff_pairwise.mp (chain'_sortDedup offs)).imp Nat.le_of_lt)]
  simp

theorem ceilBoundary_isBoundary (cs : List Nat) (i : Nat) : IsBoundary cs (ceilBoundary cs i) := by
  induction cs generalizing i with
  | nil => exact ⟨0, rfl⟩
  | cons c cs ih =>
    by_cases h : i = 0
    · exact ⟨0, by simp [ceilBoundary, h, utf8Sum]⟩
    · obtain ⟨k, hk⟩ := ih (i - utf8Len c)
      refine ⟨k + 1, ?_⟩
      simp only [ceilBoundary, if_neg h, List.take_succ_cons, utf8Sum, List.map_cons,
        List.sum_cons]
      rw [hk]
      rfl

theorem le_ceilBoundary (cs : List Nat) (i : Nat) (h : i ≤ utf8Sum cs) :
    i ≤ ceilBoundary cs i := by
  induction cs generalizing i with
  | nil =>
    simp [utf8Sum] at h
    simp [ceilBoundary, h]
  | cons c cs ih =>
    by_cases h0 : i = 0
    · simp [ceilBoundary, h0]
    · rw [ceilBoundary, if_neg h0]
      have hsum : utf8Sum (c :: cs) = utf8Len c + utf8Sum cs := by
        simp [utf8Sum]
      have := ih (i - utf8Len c) (by omega)
      omega

theorem ceilBoundary_min (cs : List Nat) (i b : Nat) (hb : IsBoundary cs b) (hge : i ≤ b) :
    ceilBoundary cs i ≤ b := by
  induction cs generalizing i b with
  | nil => simp [ceilBoundary]
  | cons c cs ih =>
    by_cases h0 : i = 0
    · simp [ceilBoundary, h0]
    · rw [ceilBoundary, if_neg h0]
      obtain ⟨k, hk⟩ := hb
      cases k with
      | zero =>
        simp [utf8Sum] at hk
        omega
      | succ k =>
        have hk' : b = utf8Len c + utf8Sum (cs.take k) := by
          simpa [utf8Sum] using hk
        have := ih (i - utf8Len c) (utf8Sum (cs.take k)) ⟨k, rfl⟩ (by omega)
        omega

/-- The scalar translator returns exactly the UTF-16 length of the content
below the snapped boundary. -/
theorem utf16_index_bytes_eq_within (cs : List Nat) (i : Nat) :
    utf16_index_bytes cs i = utf16Within cs (ceilBoundary cs i) := by
  induction cs generalizing i with
  | nil => rfl
  | cons c cs ih =>
    by_cases h0 : i = 0
    · have e1 : utf16_index_bytes (c :: cs) i = 0 := by rw [utf16_index_bytes, if_pos h0]
      have e2 : ceilBoundary (c :: cs) i = 0 := by rw [ceilBoundary, if_pos h0]
      have e3 : utf16Within (c :: cs) 0 = 0 := by
        rw [utf16Within, if_neg (by have := utf8Len_pos c; omega)]
      rw [e1, e2, e3]
    · rw [utf16_index_bytes, if_neg h0, ceilBoundary, if_neg h0]
      rw [utf16Within,
        if_pos (by omega : utf8Len c ≤ utf8Len c + ceilBoundary cs (i - utf8Len c))]
      rw [Nat.add_sub_cancel_left]
      rw [ih]

theorem utf16_index_bytes_full (cs : List Nat) :
    utf16_index_bytes cs (utf8Sum cs) = utf16Sum cs := by
  induction cs with
  | nil => rfl
  | cons c cs ih =>
    have h1 : utf8Sum (c :: cs) = utf8Len c + utf8Sum cs := by simp [utf8Sum]
    have h0 : utf8Sum (c :: cs) ≠ 0 := by
      have := utf8Len_pos c
      omega
    rw [utf16_index_bytes, if_neg h0, h1, Nat.add_sub_cancel_left, ih]
    simp [utf16Sum]

theorem utf16_index_bytes_mono (cs : List Nat) (a b : Nat) (h : a ≤ b) :
    utf16_index_bytes cs a ≤ utf16_index_bytes cs b := by
  induction cs generalizing a b with
  | nil => simp [utf16_index_bytes]
  | cons c cs ih =>
    by_cases ha : a = 0
    · subst ha
      have e1 : utf16_index_bytes (c :: cs) 0 = 0 := by rw [utf16_index_bytes, if_pos rfl]
      rw [e1]
      exact Nat.zero_le _
    · have hb : b ≠ 0 := by omega
      rw [utf16_index_bytes, if_neg ha, utf16_index_bytes, if_neg hb]
      have := ih (a - utf8Len c) (b - utf8Len c) (by omega)
      omega

/-- When both diagnostic lines are found, `make_span` translates the offsets
through the byte translator and the columns through the char translator. -/
theorem make_span_some (s : List Nat) (sp : ReSpan) (sl el : List Nat)
    (hs : (rustLines s)[sp.start.line - 1]? = some sl)
    (he : (rustLines s)[sp.stop.line - 1]? = some el) :
    make_span s sp = some
      { start := { offset := utf16_index_bytes s sp.start.offset, line := sp.start.line,
                   column := utf16_index_chars sl (sp.start.column - 1) + 1 },
        stop := { offset := utf16_index_bytes s sp.stop.offset, line := sp.stop.line,
                  column := utf16_index_chars el (sp.stop.column - 1) + 1 } } := by
  rw [make_span]
  rw [hs, he]
  rfl

/-- When the diagnostic's start line is beyond the pattern's line count, the
line lookup fails and `make_span` fails (a panic in the source). -/
theorem make_span_none (s : List Nat) (sp : ReSpan)
    (h : (rustLines s).length < sp.start.line) : make_span s sp = none := by
  have hn : (rustLines s)[sp.start.line - 1]? = none := by
    rw [List.getElem?_eq_none]
    omega
  rw [make_span, hn]
  rfl

/-- Inversion for `make_span`: any successful result has the translated
fields. -/
theorem make_span_inv (s : List Nat) (sp : ReSpan) (out : Span)
    (h : make_span s sp = some out) :
    ∃ sl el, (rustLines s)[sp.start.line - 1]? = some sl ∧
      (rustLines s)[sp.stop.line - 1]? = some el ∧
      out = { start := { offset := utf16_index_bytes s sp.start.offset, line := sp.start.line,
                         column := utf16_index_chars sl (sp.start.column - 1) + 1 },
              stop := { offset := utf16_index_bytes s sp.stop.offset, line := sp.stop.line,
                        column := utf16_index_chars el (sp.stop.column - 1) + 1 } } := by
  cases hs : (rustLines s)[sp.start.line - 1]? with
  | none =>
    rw [make_span, hs] at h
    exact absurd h (by simp)
  | some sl =>
    cases he : (rustLines s)[sp.stop.line - 1]? with
    | none =>
      rw [make_span, hs, he] at h
      exact absurd h (by simp)
    | some el =>
      refine ⟨sl, el, rfl, rfl, ?_⟩
      rw [make_span_some s sp sl el hs he] at h
      exact (Option.some_injective _ h).symm

/-- A successful parse-stage conversion carries an auxiliary span exactly
when the diagnostic supplies one. -/
theorem reSynFrom_parse_aux (a : AstError) (r : ReSyn)
    (h : reSynFrom (.parse a) = some r) :
    r.auxiliary_span.isSome = a.auxiliary_span.isSome := by
  cases hms : make_span a.pattern a.span with
  | none =>
    rw [reSynFrom, hms] at h
    exact absurd h (by simp)
  | some sp =>
    cases haux : a.auxiliary_span with
    | none =>
      rw [reSynFrom, hms, haux] at h
      simp only [Option.some_bind] at h
      rw [← Option.some_injective _ h]
      simp
    | some asp =>
      rw [reSynFrom, hms, haux] at h
      simp only [Option.some_bind] at h
      cases hms' : make_span a.pattern asp with
      | none =>
        rw [hms'] at h
        exact absurd h (by simp)
      | some asp' =>
        rw [hms'] at h
        simp only [Option.map_some'] at h
        rw [← Option.some_injective _ h]
        simp

/-- A successful translate-stage conversion never carries an auxiliary
span. -/
theorem reSynFrom_translate_aux (e : HirError) (r : ReSyn)
    (h : reSynFrom (.translate e) = some r) : r.auxiliary_span = none := by
  cases hms : make_span e.pattern e.span with
  | none =>
    rw [reSynFrom, hms] at h
    exact absurd h (by simp)
  | some sp =>
    rw [reSynFrom, hms] at h
    simp only [Option.map_some'] at h
    rw [← Option.some_injective _ h]

theorem utf8Encode_append (l1 l2 : List Nat) :
    utf8Encode (l1 ++ l2) = utf8Encode l1 ++ utf8Encode l2 := by
  simp [utf8Encode]

/-- Fidelity check against `test_u16_slice_nonutf8_endemoji` of src/tests.rs. -/
theorem tests_rs_u16_slice_nonutf8_endemoji :
    utf16_index_bytes_slice (textCP "xx😀") [0, 1, 2, 3, 4, 5, 6] =
      [(0, 0), (1, 1), (2, 2), (3, 4), (4, 4), (5, 4), (6, 4)] := by decide

/-- Fidelity check against `test_u16_slice_nonutf8_startemoji` of src/tests.rs. -/
theorem tests_rs_u16_slice_nonutf8_startemoji :
    utf16_index_bytes_slice (textCP "😀xx") [0, 1, 2, 3, 4, 5, 6] =
      [(0, 0), (1, 2), (2, 2), (3, 2), (4, 2), (5, 3), (6, 4)] := by decide

/-- Fidelity check against `test_u16_slice_nonutf8_enchar` of src/tests.rs. -/
theorem tests_rs_u16_slice_nonutf8_enchar :
    utf16_index_bytes_slice (textCP "xx😀xx") [0, 1, 2, 3, 4, 5, 6, 7, 8] =
      [(0, 0), (1, 1), (2, 2), (3, 4), (4, 4), (5, 4), (6, 4), (7, 5), (8, 6)] := by decide

/-- Fidelity check against `test_u16_byte_slice_index_allemojis` of src/tests.rs. -/
theorem tests_rs_u16_byte_slice_index_allemojis :
    utf16_index_bytes_slice (textCP "😀😃😄") [0, 12] = [(0, 0), (12, 6)] := by decide

/-- Fidelity check against `test_str_utf8_replace` of src/tests.rs. -/
theorem tests_rs_str_utf8_replace :
    str_from_utf8_rep (textCP "a😀b") 0 1 = textCP "a" ∧
    str_from_utf8_rep (textCP "a😀b") 0 3 = textCP "a\\xf0\\x9f" ∧
    str_from_utf8_rep (textCP "a😀b") 1 4 = textCP "\\xf0\\x9f\\x98" ∧
    str_from_utf8_rep (textCP "a😀b") 2 3 = textCP "\\x9f" := by decide

/-- Claim C1: the batched translator returns exactly one pair per distinct
input offset, sorted ascending by byte offset, each pair's UTF-16 value
equal to the scalar translator applied independently; the output is
deterministic and independent of the input order, for any subset of
offsets. -/
theorem c1_batch_scalar_equivalence :
    ∀ cs offs : List Nat,
      utf16_index_bytes_slice cs offs =
        (sortDedup offs).map (fun o => (o, utf16_index_bytes cs o)) ∧
      ((utf16_index_bytes_slice cs offs).map Prod.fst).Chain' (· < ·) ∧
      (∀ o, o ∈ (utf16_index_bytes_slice cs offs).map Prod.fst ↔ o ∈ offs) ∧
      (∀ p ∈ utf16_index_bytes_slice cs offs, p.2 = utf16_index_bytes cs p.1) ∧
      (∀ offs', offs.Perm offs' →
        utf16_index_bytes_slice cs offs = utf16_index_bytes_slice cs offs') := by
  intro cs offs
  have he := slice_eq_map cs offs
  refine ⟨he, ?_, ?_, ?_, ?_⟩
  · rw [he, List.map_map]
    have hid : (Prod.fst ∘ fun o => (o, utf16_index_bytes cs o)) = id := rfl
    rw [hid, List.map_id]
    exact chain'_sortDedup offs
  · intro o
    rw [he, List.map_map]
    have hid : (Prod.fst ∘ fun o => (o, utf16_index_bytes cs o)) = id := rfl
    rw [hid, List.map_id]
    exact mem_sortDedup
  · intro p hp
    rw [he] at hp
    obtain ⟨o, _, rfl⟩ := List.mem_map.mp hp
    rfl
  · intro offs' hperm
    rw [slice_eq_map, slice_eq_map, sortDedup_perm hperm]

theorem c1_batch_scalar_equivalence_witness :
    utf16_index_bytes_slice (textCP "😀😃😄") [12, 0, 12] =
      utf16_index_bytes_slice (textCP "😀😃😄") [0, 12, 12] ∧
    utf16_index_bytes_slice (textCP "😀😃😄") [12, 0, 12] = [(0, 0), (12, 6)] :=
  ⟨(c1_batch_scalar_equivalence (textCP "😀😃😄") [12, 0, 12]).2.2.2.2 [0, 12, 12]
      (List.Perm.swap 0 12 [12]),
   ((c1_batch_scalar_equivalence (textCP "😀😃😄") [12, 0, 12]).1).trans (by decide)⟩

/-- Claim C2: for byte offsets within the buffer, the scalar translator
returns the UTF-16 count of the content below the smallest Boundary at or
after the offset (ceiling snap); an offset equal to the total byte length
maps to the full UTF-16 length. -/
theorem c2_ceiling_snap (cs : List Nat) (i : Nat) (h : i ≤ utf8Sum cs) :
    IsBoundary cs (ceilBoundary cs i) ∧
    i ≤ ceilBoundary cs i ∧
    (∀ b, IsBoundary cs b → i ≤ b → ceilBoundary cs i ≤ b) ∧
    utf16_index_bytes cs i = utf16Within cs (ceilBoundary cs i) ∧
    (i = utf8Sum cs → utf16_index_bytes cs i = utf16Sum cs) :=
  ⟨ceilBoundary_isBoundary cs i, le_ceilBoundary cs i h,
   fun b hb hge => ceilBoundary_min cs i b hb hge,
   utf16_index_bytes_eq_within cs i,
   fun he => by rw [he, utf16_index_bytes_full]⟩

theorem c2_ceiling_snap_witness :
    3 ≤ ceilBoundary (textCP "xx😀") 3 ∧
    utf16_index_bytes (textCP "xx😀") 3 =
      utf16Within (textCP "xx😀") (ceilBoundary (textCP "xx😀") 3) ∧
    IsBoundary (textCP "xx😀") (ceilBoundary (textCP "xx😀") 3) ∧
    utf16_index_bytes (textCP "xx😀") 6 = utf16Sum (textCP "xx😀") :=
  ⟨(c2_ceiling_snap (textCP "xx😀") 3 (by decide)).2.1,
   (c2_ceiling_snap (textCP "xx😀") 3 (by decide)).2.2.2.1,
   (c2_ceiling_snap (textCP "xx😀") 3 (by decide)).1,
   (c2_ceiling_snap (textCP "xx😀") 6 (by decide)).2.2.2.2 (by decide)⟩

/-- Claim C3: the renderer copies maximal valid UTF-8 runs verbatim and
renders each non-decodable byte as one 4-character lowercase escape unit,
with no collapsing; a range covering only complete valid scalars renders
with no escapes, and for the subject "a😀b" the range [1,4) renders as the
text `\xf0\x9f\x98`. -/
theorem c3_lossy_renderer :
    (∀ pre mid post : List Nat, (∀ c ∈ mid, ScalarValue c) →
      str_from_utf8_rep (pre ++ mid ++ post) (utf8Sum pre) (utf8Sum pre + utf8Sum mid) = mid) ∧
    (∀ b bs, decodeUtf8 (b :: bs) = none →
      renderBytes (b :: bs) = escapeByte b ++ renderBytes bs ∧ (escapeByte b).length = 4) ∧
    str_from_utf8_rep (textCP "a😀b") 1 4 = textCP "\\xf0\\x9f\\x98" := by
  refine ⟨?_, ?_, by decide⟩
  · intro pre mid post hmid
    rw [str_from_utf8_rep, Nat.add_sub_cancel_left]
    rw [utf8Encode_append, utf8Encode_append, List.append_assoc]
    rw [← length_utf8Encode pre, List.drop_left]
    rw [← length_utf8Encode mid, List.take_left]
    exact renderBytes_encode mid hmid
  · intro b bs h
    exact ⟨renderBytes_invalid b bs h, rfl⟩

theorem c3_lossy_renderer_witness :
    str_from_utf8_rep ([97] ++ [128512] ++ [98]) (utf8Sum [97])
        (utf8Sum [97] + utf8Sum [128512]) = [128512] ∧
    renderBytes [159] = escapeByte 159 ++ renderBytes [] ∧
    (escapeByte 159).length = 4 :=
  ⟨c3_lossy_renderer.1 [97] [128512] [98] (by decide),
   (c3_lossy_renderer.2.1 159 [] (by decide)).1,
   (c3_lossy_renderer.2.1 159 [] (by decide)).2⟩

/-- Claim C4: every pattern-compilation failure maps into the closed
four-variant error union, always through the syntax variant; a parse-stage
error carries an auxiliary span exactly when the diagnostic supplies one,
while a translate-stage error never carries one. -/
theorem c4_error_union :
    (∀ (e : ReStxError) (r : Error), errorFromStx e = some r → ∃ rs, r = Error.reSyn rs) ∧
    (∀ err : Error, (∃ rs, err = Error.reSyn rs) ∨ (∃ m, err = Error.compiledTooBig m) ∨
      (∃ m, err = Error.unspecified m) ∨ (∃ m, err = Error.encoding m)) ∧
    (∀ (a : AstError) (r : ReSyn), reSynFrom (.parse a) = some r →
      (r.auxiliary_span.isSome ↔ a.auxiliary_span.isSome)) ∧
    (∀ (e : HirError) (r : ReSyn), reSynFrom (.translate e) = some r →
      r.auxiliary_span = none) := by
  refine ⟨?_, ?_, ?_, ?_⟩
  · intro e r h
    cases hr : reSynFrom e with
    | none =>
      rw [errorFromStx, hr] at h
      exact absurd h (by simp)
    | some rs =>
      rw [errorFromStx, hr] at h
      simp only [Option.map_some'] at h
      exact ⟨rs, (Option.some_injective _ h).symm⟩
  · intro err
    cases err with
    | reSyn rs => exact .inl ⟨rs, rfl⟩
    | compiledTooBig m => exact .inr (.inl ⟨m, rfl⟩)
    | unspecified m => exact .inr (.inr (.inl ⟨m, rfl⟩))
    | encoding m => exact .inr (.inr (.inr ⟨m, rfl⟩))
  · intro a r h
    rw [reSynFrom_parse_aux a r h]
  · intro e r h
    exact reSynFrom_translate_aux e r h

theorem c4_error_union_witness :
    ((⟨"k", "m", textCP "ab", ⟨⟨0, 1, 1⟩, ⟨1, 1, 2⟩⟩,
        some ⟨⟨0, 1, 1⟩, ⟨1, 1, 2⟩⟩⟩ : ReSyn).auxiliary_span.isSome ↔
      (some (⟨⟨0, 1, 1⟩, ⟨1, 1, 2⟩⟩ : ReSpan)).isSome) ∧
    ∃ rs, Error.reSyn ⟨"unspecified error", "", [], ⟨⟨0, 0, 0⟩, ⟨0, 0, 0⟩⟩, none⟩ =
      Error.reSyn rs :=
  ⟨c4_error_union.2.2.1
      ⟨"k", "m", textCP "ab", ⟨⟨0, 1, 1⟩, ⟨1, 1, 2⟩⟩, some ⟨⟨0, 1, 1⟩, ⟨1, 1, 2⟩⟩⟩
      ⟨"k", "m", textCP "ab", ⟨⟨0, 1, 1⟩, ⟨1, 1, 2⟩⟩, some ⟨⟨0, 1, 1⟩, ⟨1, 1, 2⟩⟩⟩
      (by decide),
   c4_error_union.1 ReStxError.other
      (Error.reSyn ⟨"unspecified error", "", [], ⟨⟨0, 0, 0⟩, ⟨0, 0, 0⟩⟩, none⟩) (by decide)⟩

/-- Claim C5: for diagnostics whose 1-based line numbers are within the
pattern's line count, `make_span` produces 1-based UTF-16 columns equal to 1
plus the summed UTF-16 widths of the scalars before the diagnostic's char
column on that line, and offsets equal to the scalar byte-to-UTF-16
translation of the diagnostic's byte offsets; the line lookup fails if the
line index is out of range. -/
theorem c5_make_span_columns (s : List Nat) (sp : ReSpan)
    (h1 : 1 ≤ sp.start.line) (h2 : sp.start.line ≤ (rustLines s).length)
    (h3 : 1 ≤ sp.stop.line) (h4 : sp.stop.line ≤ (rustLines s).length) :
    (∃ sl el,
      (rustLines s)[sp.start.line - 1]? = some sl ∧
      (rustLines s)[sp.stop.line - 1]? = some el ∧
      make_span s sp = some
        { start := { offset := utf16_index_bytes s sp.start.offset, line := sp.start.line,
                     column := ((sl.take (sp.start.column - 1)).map utf16Len).sum + 1 },
          stop := { offset := utf16_index_bytes s sp.stop.offset, line := sp.stop.line,
                    column := ((el.take (sp.stop.column - 1)).map utf16Len).sum + 1 } }) ∧
    (∀ sp' : ReSpan, (rustLines s).length < sp'.start.line → make_span s sp' = none) := by
  constructor
  · have hsl : sp.start.line - 1 < (rustLines s).length := by omega
    have hel : sp.stop.line - 1 < (rustLines s).length := by omega
    refine ⟨(rustLines s).get ⟨sp.start.line - 1, hsl⟩, (rustLines s).get ⟨sp.stop.line - 1, hel⟩,
      ?_, ?_, ?_⟩
    · rw [List.getElem?_eq_getElem hsl]
      rfl
    · rw [List.getElem?_eq_getElem hel]
      rfl
    · exact make_span_some s sp _ _ (by rw [List.getElem?_eq_getElem hsl]; rfl)
        (by rw [List.getElem?_eq_getElem hel]; rfl)
  · intro sp' h
    exact make_span_none s sp' h

theorem c5_make_span_columns_witness :
    make_span (textCP "ab") ⟨⟨0, 9, 1⟩, ⟨0, 9, 1⟩⟩ = none :=
  (c5_make_span_columns (textCP "ab") ⟨⟨0, 1, 1⟩, ⟨1, 1, 2⟩⟩
    (by decide) (by decide) (by decide) (by decide)).2 ⟨⟨0, 9, 1⟩, ⟨0, 9, 1⟩⟩ (by decide)

/-- Claim C6: every execution-stage matcher error that is not a syntax error
is surfaced as structured data, compiled-too-big mapping to the
pattern-too-large variant and everything else to the unspecified variant;
the syntax branch is the asserted-unreachable abort. -/
theorem c6_matcher_errors_structured :
    (∀ e : RegexError, (∀ m, e ≠ RegexError.stx m) →
      ∃ r : Error, errorFromRegex e = some r ∧
        ((∃ m, e = RegexError.compiledTooBig m ∧ r = Error.compiledTooBig m) ∨
         (∃ m, e = RegexError.other m ∧ r = Error.unspecified m))) ∧
    (∀ m, errorFromRegex (RegexError.stx m) = none) := by
  constructor
  · intro e he
    cases e with
    | stx m => exact absurd rfl (he m)
    | compiledTooBig m => exact ⟨.compiledTooBig m, rfl, .inl ⟨m, rfl, rfl⟩⟩
    | other m => exact ⟨.unspecified m, rfl, .inr ⟨m, rfl, rfl⟩⟩
  · intro m
    rfl

theorem c6_matcher_errors_structured_witness :
    errorFromRegex (RegexError.compiledTooBig "x") = some (Error.compiledTooBig "x") ∧
    errorFromRegex (RegexError.stx "y") = none := by
  constructor
  · obtain ⟨r, hr, hcase⟩ := c6_matcher_errors_structured.1 (RegexError.compiledTooBig "x")
      (fun m => by simp)
    rcases hcase with ⟨m, hm, rfl⟩ | ⟨m, hm, rfl⟩
    · injection hm with h
      rw [← h] at hr
      exact hr
    · exact absurd hm (by simp)
  · exact c6_matcher_errors_structured.2 "y"

/-- Claim C7: the scalar byte-to-UTF-16 translator is monotone in the byte
offset. -/
theorem c7_translator_monotone (cs : List Nat) (a b : Nat) (h : a ≤ b) :
    utf16_index_bytes cs a ≤ utf16_index_bytes cs b :=
  utf16_index_bytes_mono cs a b h

theorem c7_translator_monotone_witness :
    utf16_index_bytes (textCP "xx😀") 2 ≤ utf16_index_bytes (textCP "xx😀") 5 :=
  c7_translator_monotone (textCP "xx😀") 2 5 (by decide)

/-- Claim C8: for the subject "x😀🤣a🤩😛🏴‍☠️🤑", byte range [1,5) maps to
UTF-16 range [1,3) and renders as "😀", and byte range [5,14) maps to UTF-16
range [3,8) and renders as "🤣a🤩". -/
theorem c8_roundtrip_sample :
    utf16_index_bytes (textCP "x😀🤣a🤩😛🏴‍☠️🤑") 1 = 1 ∧
    utf16_index_bytes (textCP "x😀🤣a🤩😛🏴‍☠️🤑") 5 = 3 ∧
    utf16_index_bytes (textCP "x😀🤣a🤩😛🏴‍☠️🤑") 14 = 8 ∧
    str_from_utf8_rep (textCP "x😀🤣a🤩😛🏴‍☠️🤑") 1 5 = textCP "😀" ∧
    str_from_utf8_rep (textCP "x😀🤣a🤩😛🏴‍☠️🤑") 5 14 = textCP "🤣a🤩" := by decide

/-- Claim C9: the fallback branch of the syntax-error conversion still
returns a structured diagnostic: kind "unspecified error", every other
field defaulted (empty message and pattern, all-zero primary span, no
auxiliary span). -/
theorem c9_unspecified_default :
    reSynFrom ReStxError.other =
      some { kind := "unspecified error", message := "", pattern := [],
             span := { start := ⟨0, 0, 0⟩, stop := ⟨0, 0, 0⟩ }, auxiliary_span := none } := rfl

/-- Claim C10: `make_span` copies the diagnostic's 1-based line numbers
unchanged; only the offset (byte to UTF-16) and the column (char column to
UTF-16 column) are converted. -/
theorem c10_make_span_frame (s : List Nat) (sp : ReSpan) (out : Span)
    (h : make_span s sp = some out) :
    out.start.line = sp.start.line ∧ out.stop.line = sp.stop.line ∧
    out.start.offset = utf16_index_bytes s sp.start.offset ∧
    out.stop.offset = utf16_index_bytes s sp.stop.offset ∧
    (∀ sl, (rustLines s)[sp.start.line - 1]? = some sl →
      out.start.column = utf16_index_chars sl (sp.start.column - 1) + 1) ∧
    (∀ el, (rustLines s)[sp.stop.line - 1]? = some el →
      out.stop.column = utf16_index_chars el (sp.stop.column - 1) + 1) := by
  obtain ⟨sl, el, hs, he, rfl⟩ := make_span_inv s sp out h
  refine ⟨rfl, rfl, rfl, rfl, ?_, ?_⟩
  · intro sl' hsl'
    rw [hs] at hsl'
    rw [Option.some_injective _ hsl']
  · intro el' hel'
    rw [he] at hel'
    rw [Option.some_injective _ hel']

theorem c10_make_span_frame_witness :
    (Span.mk ⟨0, 1, 1⟩ ⟨1, 1, 2⟩).start.line = (ReSpan.mk ⟨0, 1, 1⟩ ⟨1, 1, 2⟩).start.line ∧
    (Span.mk ⟨0, 1, 1⟩ ⟨1, 1, 2⟩).stop.line = (ReSpan.mk ⟨0, 1, 1⟩ ⟨1, 1, 2⟩).stop.line ∧
    (Span.mk ⟨0, 1, 1⟩ ⟨1, 1, 2⟩).start.offset =
      utf16_index_bytes (textCP "ab") (ReSpan.mk ⟨0, 1, 1⟩ ⟨1, 1, 2⟩).start.offset ∧
    (Span.mk ⟨0, 1, 1⟩ ⟨1, 1, 2⟩).stop.offset =
      utf16_index_bytes (textCP "ab") (ReSpan.mk ⟨0, 1, 1⟩ ⟨1, 1, 2⟩).stop.offset :=
  ⟨(c10_make_span_frame (textCP "ab") ⟨⟨0, 1, 1⟩, ⟨1, 1, 2⟩⟩ ⟨⟨0, 1, 1⟩, ⟨1, 1, 2⟩⟩
      (by decide)).1,
   (c10_make_span_frame (textCP "ab") ⟨⟨0, 1, 1⟩, ⟨1, 1, 2⟩⟩ ⟨⟨0, 1, 1⟩, ⟨1, 1, 2⟩⟩
      (by decide)).2.1,
   (c10_make_span_frame (textCP "ab") ⟨⟨0, 1, 1⟩, ⟨1, 1, 2⟩⟩ ⟨⟨0, 1, 1⟩, ⟨1, 1, 2⟩⟩
      (by decide)).2.2.1,
   (c10_make_span_frame (textCP "ab") ⟨⟨0, 1, 1⟩, ⟨1, 1, 2⟩⟩ ⟨⟨0, 1, 1⟩, ⟨1, 1, 2⟩⟩
      (by decide)).2.2.2.1⟩
